import Mathlib

/-!
Verification development for the learn_strudel repository.

The repository's source files are short Strudel live-coding scripts:
stacks of pattern strings such as "bd ~ ~ bd ~ ~ ~ ~", "hh*8" and
"<a3 c4 e4>", together with tempo settings `setcps(0.5)` and
`setcps(120/60/4)`.  The specification describes a standalone
pattern-sequencing and mixing core (parser, compiler, track,
mixer/scheduler) that the scripts rely on; that core is not present
under the repository's sources, so it is modelled here from the
specification and the repository's pattern strings and tempo constants
are checked against it.
-/

namespace Strudel

/-- Modelled from the spec: a step token of the pattern mini-language —
`Hit(soundId, variant?)` for a sounding step or `Rest` for silence.
(The parser itself is missing from the repository sources; only the
pattern strings that feed it appear there.) -/
inductive Step where
  | hit (soundId : String) (variant : Option String)
  | rest
deriving DecidableEq, Repr

/-- Modelled from the spec: one top-level token of a parsed pattern.
`plain` is a single Hit or Rest, `reps` is the `name*k` repeat form
(k consecutive identical hits inside one top-level slot), and `group`
is the angle-bracket alternation `<a b c>`. -/
inductive Slot where
  | plain (s : Step)
  | reps (soundId : String) (variant : Option String) (k : Nat)
  | group (children : List Step)
deriving DecidableEq, Repr

/-- Modelled from the spec: a Pattern is the ordered sequence of
top-level tokens spanning one cycle. -/
abbrev Pattern := List Slot

/-- Modelled from the spec: the parse-time error, raised when brackets
are unbalanced, a repeat suffix is non-numeric, or a token is otherwise
unrecognized. -/
inductive PatternSyntaxError where
  | unbalancedBrackets
  | badRepeatSuffix (tok : String)
  | unrecognizedToken (tok : String)
deriving DecidableEq, Repr

/-- Characters allowed in a sound or variant name. -/
def isNameChar (c : Char) : Bool := c.isAlphanum

/-- A nonempty run of name characters. -/
def isName (cs : List Char) : Bool := !cs.isEmpty && cs.all isNameChar

/-- A nonempty run of decimal digits. -/
def isDigits (cs : List Char) : Bool := !cs.isEmpty && cs.all Char.isDigit

/-- Decimal value of a digit string. -/
def digitsToNat (cs : List Char) : Nat :=
  cs.foldl (fun n c => 10 * n + (c.toNat - 48)) 0

/-- Modelled from the spec: split on whitespace at the top level while
tracking angle-bracket nesting depth, so tokens inside `<...>` are not
split apart. -/
def splitTopAux : List Char → Nat → List Char → List (List Char)
  | [], _, cur => if cur.isEmpty then [] else [cur.reverse]
  | c :: rest, depth, cur =>
    if c = ' ' ∧ depth = 0 then
      if cur.isEmpty then splitTopAux rest depth []
      else cur.reverse :: splitTopAux rest depth []
    else
      splitTopAux rest
        (if c = '<' then depth + 1 else if c = '>' then depth - 1 else depth)
        (c :: cur)

/-- Whether the angle brackets of the text are balanced, scanning with a
running depth. -/
def bracketBalanced : List Char → Nat → Bool
  | [], d => d == 0
  | c :: rest, d =>
    if c = '<' then bracketBalanced rest (d + 1)
    else if c = '>' then (if d = 0 then false else bracketBalanced rest (d - 1))
    else bracketBalanced rest d

/-- Split a character list at the first occurrence of `sep`, when present. -/
def splitOnChar (sep : Char) : List Char → Option (List Char × List Char)
  | [] => none
  | c :: rest =>
    if c = sep then some ([], rest)
    else
      match splitOnChar sep rest with
      | some (a, b) => some (c :: a, b)
      | none => none

/-- Modelled from the spec: parse one step token — `~` is Rest, `name`
or `name:variant` is a Hit, anything else is unrecognized. -/
def parseStep (cs : List Char) : Except PatternSyntaxError Step :=
  if cs = ['~'] then .ok .rest
  else
    match splitOnChar ':' cs with
    | some (n, v) =>
      if isName n && isName v then .ok (.hit (String.mk n) (some (String.mk v)))
      else .error (.unrecognizedToken (String.mk cs))
    | none =>
      if isName cs then .ok (.hit (String.mk cs) none)
      else .error (.unrecognizedToken (String.mk cs))

/-- Modelled from the spec: parse one top-level token — `~` Rest,
`<a b c>` alternation Group, `name*k` repeat (non-numeric suffix is an
error), `name` or `name:variant` Hit. -/
def parseToken (cs : List Char) : Except PatternSyntaxError Slot :=
  match cs with
  | '<' :: rest =>
    if rest.getLast? = some '>' then
      let parts := splitTopAux rest.dropLast 0 []
      if parts.isEmpty then .error (.unrecognizedToken (String.mk cs))
      else (parts.mapM parseStep).map Slot.group
    else .error (.unbalancedBrackets)
  | _ =>
    if cs = ['~'] then .ok (.plain .rest)
    else
      match splitOnChar '*' cs with
      | some (n, k) =>
        if isName n ∧ isDigits k then .ok (.reps (String.mk n) none (digitsToNat k))
        else if isName n then .error (.badRepeatSuffix (String.mk cs))
        else .error (.unrecognizedToken (String.mk cs))
      | none => (parseStep cs).map Slot.plain

/-- Modelled from the spec: `parse(text) -> Pattern`, failing with
`PatternSyntaxError` on unbalanced brackets or malformed tokens; an
empty-string cycle is a single Rest. -/
def parse (text : String) : Except PatternSyntaxError Pattern :=
  if bracketBalanced text.data 0 then
    match (splitTopAux text.data 0 []).mapM parseToken with
    | .error e => .error e
    | .ok slots => .ok (if slots.isEmpty then [Slot.plain Step.rest] else slots)
  else .error .unbalancedBrackets

/-- Modelled from the spec: a CompiledEvent — the fraction of the cycle
at which the event starts, the sound, its variant, and the fraction of
the cycle it lasts. -/
structure CompiledEvent where
  startOffsetWithinCycle : ℚ
  soundId : String
  variant : Option String
  durationFraction : ℚ
deriving DecidableEq, Repr

/-- Events of a single resolved step occupying slot `slotIndex` of `n`:
a Hit fills its `1/n` slot, a Rest produces no event. -/
def stepEvents (n slotIndex : Nat) : Step → List CompiledEvent
  | .rest => []
  | .hit sid v => [⟨(slotIndex : ℚ) / n, sid, v, 1 / n⟩]

/-- Modelled from the spec: compile one top-level slot (slot `slotIndex`
of `n`) for cycle `cycleIndex`.  A plain Hit fills its `1/n` slot; Rest
produces nothing; `name*k` produces k hits of duration `1/(n*k)` inside
the slot; a Group selects child `cycleIndex mod groupLength` and lets it
fill the slot. -/
def compileSlot (n slotIndex cycleIndex : Nat) : Slot → List CompiledEvent
  | .plain st => stepEvents n slotIndex st
  | .reps sid v k =>
    (List.range k).map fun (j : Nat) =>
      ⟨(slotIndex : ℚ) / n + (j : ℚ) / ((n : ℚ) * k), sid, v, 1 / ((n : ℚ) * k)⟩
  | .group ch =>
    match ch[cycleIndex % ch.length]? with
    | some st => stepEvents n slotIndex st
    | none => []

/-- Modelled from the spec: `compile(pattern, cycleIndex)` — every
top-level slot compiled in order against the equal-subdivision rule. -/
def compile (p : Pattern) (cycleIndex : Nat) : List CompiledEvent :=
  ((List.range p.length).map fun i =>
    compileSlot p.length i cycleIndex (p.getD i (Slot.plain Step.rest))).flatten

/-- Modelled from the spec: per-track parameters — gain, optional
low-pass cutoff, pan and room (reverb) amount. -/
structure Params where
  gain : ℚ
  lowpassCutoffHz : Option ℚ
  pan : ℚ
  roomAmount : ℚ
deriving DecidableEq, Repr

/-- Modelled from the spec: a per-call override map; a `some` field wins
over the track's static parameter, key by key. -/
structure ParamOverride where
  gain : Option ℚ
  lowpassCutoffHz : Option (Option ℚ)
  pan : Option ℚ
  roomAmount : Option ℚ
deriving DecidableEq, Repr

/-- The empty override map: every key keeps the track default. -/
def emptyOverride : ParamOverride := ⟨none, none, none, none⟩

/-- Modelled from the spec: resolve a track's static parameters against
an override map — override wins key-by-key, unspecified keys keep the
track defaults. -/
def resolveParams (base : Params) (ov : ParamOverride) : Params :=
  ⟨ov.gain.getD base.gain,
   ov.lowpassCutoffHz.getD base.lowpassCutoffHz,
   ov.pan.getD base.pan,
   ov.roomAmount.getD base.roomAmount⟩

/-- Modelled from the spec: a Track binds one Pattern to an instrument
identifier and static parameters; immutable after construction. -/
structure Track where
  pattern : Pattern
  soundId : String
  params : Params
deriving DecidableEq, Repr

/-- Modelled from the spec: `renderCycle(cycleIndex)` — the track's
pattern compiled for the cycle, each event paired with the resolved
parameter snapshot. -/
def renderCycle (tr : Track) (cycleIndex : Nat) (ov : ParamOverride) :
    List (CompiledEvent × Params) :=
  (compile tr.pattern cycleIndex).map fun e => (e, resolveParams tr.params ov)

/-- Modelled from the spec: the top-level Composition aggregate —
tempo, cycles-per-second divisor, registered Tracks in registration
order, and global parameters. -/
structure Composition where
  tempoBPM : ℚ
  cyclesPerSecondDivisor : ℚ
  tracks : List Track
  globalGain : ℚ
  globalRoomAmount : ℚ
deriving DecidableEq, Repr

/-- Modelled from the spec: the mixer's failure kinds —
`InvalidTempoError` and `EmptyCompositionError`. -/
inductive MixerError where
  | invalidTempo
  | emptyComposition
deriving DecidableEq, Repr

/-- Modelled from the spec: `secondsPerCycle = cyclesPerSecondDivisor /
(tempoBPM/60)`. -/
def secondsPerCycle (comp : Composition) : ℚ :=
  comp.cyclesPerSecondDivisor / (comp.tempoBPM / 60)

/-- Modelled from the spec: one Timeline entry — the absolute time in
seconds, the event, the resolved parameter snapshot, and the index of
the originating Track in registration order (used for the deterministic
tie-break). -/
structure TimelineEntry where
  trackIndex : Nat
  absoluteTimeSeconds : ℚ
  event : CompiledEvent
  params : Params
deriving DecidableEq, Repr

/-- Modelled from the spec: global gain applied as a final
multiplicative scalar on each event's resolved gain. -/
def applyGlobals (comp : Composition) (ps : Params) : Params :=
  { ps with gain := ps.gain * comp.globalGain }

/-- Timeline entries of one track for one cycle, with absolute time
`(cycleIndex + startOffsetWithinCycle) * secondsPerCycle`. -/
def trackEntries (comp : Composition) (c ti : Nat) (tr : Track) : List TimelineEntry :=
  (renderCycle tr c emptyOverride).map fun pr =>
    ⟨ti, ((c : ℚ) + pr.1.startOffsetWithinCycle) * secondsPerCycle comp,
     pr.1, applyGlobals comp pr.2⟩

/-- Timeline entries of all tracks for one cycle, in registration order. -/
def cycleEntries (comp : Composition) (c : Nat) : List TimelineEntry :=
  (comp.tracks.enum.map fun pr => trackEntries comp c pr.1 pr.2).flatten

/-- All raw timeline entries over the rendering window, cycle-major. -/
def rawEntries (comp : Composition) (numCycles : Nat) : List TimelineEntry :=
  ((List.range numCycles).map fun c => cycleEntries comp c).flatten

/-- Sort order of the Timeline: earlier absolute time first, ties broken
by track registration index. -/
def entryLE (a b : TimelineEntry) : Prop :=
  a.absoluteTimeSeconds < b.absoluteTimeSeconds ∨
    (a.absoluteTimeSeconds = b.absoluteTimeSeconds ∧ a.trackIndex ≤ b.trackIndex)

instance : DecidableRel entryLE := fun a b => by
  unfold entryLE
  infer_instance

instance : IsTotal TimelineEntry entryLE where
  total a b := by
    unfold entryLE
    rcases lt_trichotomy a.absoluteTimeSeconds b.absoluteTimeSeconds with h | h | h
    · exact Or.inl (Or.inl h)
    · rcases Nat.le_total a.trackIndex b.trackIndex with ht | ht
      · exact Or.inl (Or.inr ⟨h, ht⟩)
      · exact Or.inr (Or.inr ⟨h.symm, ht⟩)
    · exact Or.inr (Or.inl h)

instance : IsTrans TimelineEntry entryLE where
  trans a b c hab hbc := by
    unfold entryLE at hab hbc ⊢
    rcases hab with h1 | ⟨h1, t1⟩
    · rcases hbc with h2 | ⟨h2, _⟩
      · exact Or.inl (h1.trans h2)
      · exact Or.inl (h2 ▸ h1)
    · rcases hbc with h2 | ⟨h2, t2⟩
      · exact Or.inl (h1 ▸ h2)
      · exact Or.inr ⟨h1.trans h2, t1.trans t2⟩

/-- Modelled from the spec: `buildTimeline(composition, numCycles)` —
fails with `InvalidTempoError` on `tempoBPM ≤ 0`, with
`EmptyCompositionError` on zero registered tracks, otherwise merges all
tracks' events into one globally time-sorted sequence with ties broken
by track registration order. -/
def buildTimeline (comp : Composition) (numCycles : Nat) :
    Except MixerError (List TimelineEntry) :=
  if comp.tempoBPM ≤ 0 then .error .invalidTempo
  else if comp.tracks.isEmpty then .error .emptyComposition
  else .ok (List.insertionSort entryLE (rawEntries comp numCycles))

/-- Tempo argument of `setcps(0.5)` in
`latin_melodic_composition/latin_simple_working.js`. -/
def latinSimpleWorkingCps : ℚ := 0.5

/-- Tempo argument of `setcps(120/60/4)` in the simple Latin test
script. -/
def testLatinSimpleCps : ℚ := 120 / 60 / 4

/-- Tempo argument of `setcps(120/60/4)` in the fixed-version melodic
composition script. -/
def fixedVersionCps : ℚ := 120 / 60 / 4

/-- Cycles per second of a 120 BPM tempo with 4 beats per cycle. -/
def cpsOfBpm (bpm beatsPerCycle : ℚ) : ℚ := bpm / 60 / beatsPerCycle

/-- The pattern strings of `latin_simple_working.js`. -/
def latinSimpleWorkingStrings : List String :=
  ["bd ~ ~ bd ~ ~ ~ ~", "cp cp ~ cp ~ ~ cp ~", "hh*8",
   "a2 ~ a2 ~ d2 ~ e2 ~", "sawtooth", "a4 g4 f4 e4 d4 c4 e4 a4", "triangle"]

/-- The pattern strings of the simple Latin test script. -/
def testLatinSimpleStrings : List String :=
  ["bd ~ ~ bd ~ ~ ~ ~", "~ cp ~ cp", "hh*8"]

/-- The pattern strings of the agent-fixed composition script. -/
def agentFixedStrings : List String :=
  ["cp cp ~ cp ~ ~ cp ~", "conga ~ conga:1 conga:2", "shaker*8",
   "bd ~ ~ bd ~ ~ ~ ~", "~ ~ rim ~ ~ rim ~ ~",
   "a4 ~ g4 f4 e4 ~ d4 c4 b3 ~ a3 ~", "sawtooth",
   "a2 a2 d2 d2 e2 e2 a2 a2", "<a3 c4 e4>", "square"]

/-- The pattern strings of the fixed-version melodic script. -/
def fixedVersionStrings : List String :=
  ["cp cp ~ cp ~ ~ cp ~", "conga ~ conga:1 conga:2", "shaker*8",
   "bd ~ ~ bd ~ ~ ~ ~", "a4 ~ g4 f4 e4 ~ d4 c4 b3 ~ a3 ~", "sawtooth",
   "<a3 d3 e3 a3>", "square", "<a2 a2 d2 d2 e2 e2 a2 a2>"]

/-- Every pattern string appearing in the repository's scripts. -/
def repoPatternStrings : List String :=
  latinSimpleWorkingStrings ++ testLatinSimpleStrings ++
    agentFixedStrings ++ fixedVersionStrings

/-- The parse of "bd ~ ~ bd". -/
def bdRestPat : Pattern :=
  [Slot.plain (Step.hit "bd" none), Slot.plain Step.rest,
   Slot.plain Step.rest, Slot.plain (Step.hit "bd" none)]

/-- The parse of "hh*4". -/
def hh4Pat : Pattern := [Slot.reps "hh" none 4]

/-- The parse of "hh*8", the hi-hat pattern of `latin_simple_working.js`. -/
def hh8Pat : Pattern := [Slot.reps "hh" none 8]

/-- The parse of "<a b>". -/
def abGroupPat : Pattern := [Slot.group [Step.hit "a" none, Step.hit "b" none]]

/-- Whether a pattern contains a repeat (`name*k`) token. -/
def hasReps (p : Pattern) : Bool :=
  p.any fun s =>
    match s with
    | Slot.reps _ _ _ => true
    | _ => false

/-- Sum of the duration fractions of a list of events. -/
def durSum (es : List CompiledEvent) : ℚ :=
  (es.map CompiledEvent.durationFraction).sum

/-- A one-track composition used to instantiate the mixer theorems:
120 BPM, 4 beats per cycle, a single kick-drum track. -/
def sampleComposition : Composition :=
  ⟨120, 4, [⟨bdRestPat, "bd", ⟨1, none, 0, 3 / 10⟩⟩], 1, 3 / 10⟩

/-- A composition with an invalid tempo and no tracks. -/
def badTempoComposition : Composition := ⟨0, 4, [], 1, 0⟩

/-- A composition with a valid tempo but no registered tracks. -/
def noTracksComposition : Composition := ⟨120, 4, [], 1, 0⟩

lemma mem_compile {p : Pattern} {c : ℕ} {e : CompiledEvent} :
    e ∈ compile p c ↔
      ∃ i, i < p.length ∧
        e ∈ compileSlot p.length i c (p.getD i (Slot.plain Step.rest)) := by
  unfold compile
  simp only [List.mem_flatten, List.mem_map, List.mem_range]
  constructor
  · rintro ⟨l, ⟨i, hi, rfl⟩, he⟩
    exact ⟨i, hi, he⟩
  · rintro ⟨i, hi, he⟩
    exact ⟨_, ⟨i, hi, rfl⟩, he⟩

lemma sum_map_const_range (k : ℕ) (a : ℚ) :
    ((List.range k).map fun _ => a).sum = k * a := by
  induction k with
  | zero => simp
  | succ m ih =>
    rw [List.range_succ, List.map_append, List.sum_append]
    simp [ih]
    ring

lemma stepEvents_within (n i : ℕ) (st : Step) :
    ∀ e ∈ stepEvents n i st,
      (i : ℚ) / n ≤ e.startOffsetWithinCycle ∧
        e.startOffsetWithinCycle + e.durationFraction ≤ ((i : ℚ) + 1) / n := by
  cases st with
  | rest => simp [stepEvents]
  | hit sid v =>
    intro e he
    simp only [stepEvents, List.mem_singleton] at he
    subst he
    refine ⟨le_refl _, ?_⟩
    rw [div_add_div_same]

lemma stepEvents_durSum (n i : ℕ) (st : Step) :
    durSum (stepEvents n i st) ≤ 1 / (n : ℚ) := by
  cases st with
  | rest =>
    simp only [stepEvents, durSum, List.map_nil, List.sum_nil]
    positivity
  | hit sid v =>
    simp only [stepEvents, durSum, List.map_cons, List.map_nil, List.sum_cons,
      List.sum_nil, add_zero]
    exact le_refl _

lemma stepEvents_length_le (n i : ℕ) (st : Step) : (stepEvents n i st).length ≤ 1 := by
  cases st <;> simp [stepEvents]

lemma compileSlot_within (n i c : ℕ) (s : Slot) (hn : 0 < n) :
    ∀ e ∈ compileSlot n i c s,
      (i : ℚ) / n ≤ e.startOffsetWithinCycle ∧
        e.startOffsetWithinCycle + e.durationFraction ≤ ((i : ℚ) + 1) / n := by
  have hn' : (0 : ℚ) < n := by exact_mod_cast hn
  cases s with
  | plain st => exact stepEvents_within n i st
  | reps sid v k =>
    intro e he
    simp only [compileSlot] at he
    rw [List.mem_map] at he
    obtain ⟨j, hjm, rfl⟩ := he
    rw [List.mem_range] at hjm
    have hk' : (0 : ℚ) < k := by exact_mod_cast Nat.zero_lt_of_lt hjm
    have hnk : (0 : ℚ) < (n : ℚ) * k := mul_pos hn' hk'
    constructor
    · exact le_add_of_nonneg_right (by positivity)
    · show (i : ℚ) / n + (j : ℚ) / ((n : ℚ) * k) + 1 / ((n : ℚ) * k) ≤ ((i : ℚ) + 1) / n
      have key : ((j : ℚ) + 1) / ((n : ℚ) * k) ≤ (k : ℚ) / ((n : ℚ) * k) := by
        apply (div_le_div_iff_of_pos_right hnk).mpr
        exact_mod_cast Nat.succ_le_of_lt hjm
      have hkk : (k : ℚ) / ((n : ℚ) * k) = 1 / n := by
        rw [mul_comm, ← div_div, div_self (ne_of_gt hk')]
      have expand : (j : ℚ) / ((n : ℚ) * k) + 1 / ((n : ℚ) * k) =
          ((j : ℚ) + 1) / ((n : ℚ) * k) := div_add_div_same _ _ _
      have final : (i : ℚ) / n + 1 / n = ((i : ℚ) + 1) / n := div_add_div_same _ _ _
      linarith
  | group ch =>
    intro e he
    rcases hg : ch[c % ch.length]? with _ | st
    · simp only [compileSlot, hg] at he
      simp at he
    · simp only [compileSlot, hg] at he
      exact stepEvents_within n i st e he

lemma compileSlot_durSum (n i c : ℕ) (s : Slot) (hn : 0 < n) :
    durSum (compileSlot n i c s) ≤ 1 / (n : ℚ) := by
  have hn' : (0 : ℚ) < n := by exact_mod_cast hn
  cases s with
  | plain st => exact stepEvents_durSum n i st
  | reps sid v k =>
    rcases Nat.eq_zero_or_pos k with hk | hk
    · subst hk
      simp only [compileSlot, List.range_zero, List.map_nil, durSum, List.sum_nil]
      positivity
    · have hk' : (0 : ℚ) < k := by exact_mod_cast hk
      have heq : durSum (compileSlot n i c (Slot.reps sid v k)) =
          (k : ℚ) * (1 / ((n : ℚ) * k)) := by
        simp only [compileSlot, durSum, List.map_map]
        exact sum_map_const_range k _
      rw [heq, mul_one_div]
      rw [show (k : ℚ) / ((n : ℚ) * k) = 1 / n by
        rw [mul_comm, ← div_div, div_self (ne_of_gt hk')]]
  | group ch =>
    rcases hg : ch[c % ch.length]? with _ | st
    · simp only [compileSlot, hg, durSum, List.map_nil, List.sum_nil]
      positivity
    · simp only [compileSlot, hg]
      exact stepEvents_durSum n i st

lemma compileSlot_length_le (n i c : ℕ) (s : Slot)
    (hs : ∀ sid v k, s ≠ Slot.reps sid v k) :
    (compileSlot n i c s).length ≤ 1 := by
  cases s with
  | plain st =>
    simp only [compileSlot]
    exact stepEvents_length_le n i st
  | reps sid v k => exact absurd rfl (hs sid v k)
  | group ch =>
    rcases hg : ch[c % ch.length]? with _ | st
    · simp [compileSlot, hg]
    · simp only [compileSlot, hg]
      exact stepEvents_length_le n i st

/-- C1: equal subdivision is the defining semantic of the pattern
language — every event compiled from a pattern with N top-level tokens
lies within the `1/N` slot of some top-level token, a plain Hit
occupies exactly its `1/N` slot, and an alternation Group occupies
exactly one such `1/N` slot (offset `i/N`, duration `1/N`) regardless
of how many children it contains. -/
theorem equal_subdivision_c1 :
    (∀ (p : Pattern) (c : ℕ), p ≠ [] → ∀ e ∈ compile p c,
      ∃ i, i < p.length ∧
        (i : ℚ) / p.length ≤ e.startOffsetWithinCycle ∧
        e.startOffsetWithinCycle + e.durationFraction ≤ ((i : ℚ) + 1) / p.length) ∧
    (∀ (n i c : ℕ) (sid : String) (v : Option String),
      compileSlot n i c (Slot.plain (Step.hit sid v)) =
        [⟨(i : ℚ) / n, sid, v, 1 / (n : ℚ)⟩]) ∧
    (∀ (n i c : ℕ) (ch : List Step), 0 < n →
      ∀ e ∈ compileSlot n i c (Slot.group ch),
        e.startOffsetWithinCycle = (i : ℚ) / n ∧ e.durationFraction = 1 / (n : ℚ)) := by
  refine ⟨?_, fun n i c sid v => rfl, ?_⟩
  · intro p c hp e he
    have hn : 0 < p.length := List.length_pos.mpr hp
    obtain ⟨i, hi, hmem⟩ := mem_compile.mp he
    exact ⟨i, hi, compileSlot_within p.length i c _ hn e hmem⟩
  · intro n i c ch hn e he
    rcases hg : ch[c % ch.length]? with _ | st
    · simp only [compileSlot, hg] at he
      simp at he
    · simp only [compileSlot, hg] at he
      cases st with
      | rest => simp [stepEvents] at he
      | hit sid v =>
        simp only [stepEvents, List.mem_singleton] at he
        subst he
        exact ⟨rfl, rfl⟩

/-- C1 witness: the first conjunct instantiated at the pattern of
"bd ~ ~ bd" and its first event, the second at a two-child group in a
one-slot pattern. -/
theorem equal_subdivision_c1_witness :
    (∃ i, i < bdRestPat.length ∧
      (i : ℚ) / bdRestPat.length ≤ (0 : ℚ) ∧
      (0 : ℚ) + 1 / 4 ≤ ((i : ℚ) + 1) / bdRestPat.length) ∧
    ((0 : ℚ) = (0 : ℚ) / (1 : ℕ) ∧ (1 : ℚ) = 1 / ((1 : ℕ) : ℚ)) :=
  ⟨equal_subdivision_c1.1 bdRestPat 0 (by decide)
      ⟨0, "bd", none, 1 / 4⟩
      (by simp [compile, compileSlot, stepEvents, bdRestPat,
        show List.range 4 = [0, 1, 2, 3] from rfl]),
   equal_subdivision_c1.2.2 1 0 0 [Step.hit "a" none, Step.hit "b" none]
      (by decide) ⟨0, "a", none, 1⟩
      (by simp [compileSlot, stepEvents])⟩

/-- C2: rest tokens never produce CompiledEvents — compiling the parse
of "bd ~ ~ bd" at any cycle yields exactly 2 events, at offsets 0 and
3/4, each a quarter-cycle long. -/
theorem rests_produce_no_events_c2 :
    parse "bd ~ ~ bd" = .ok bdRestPat ∧
    ∀ c : ℕ,
      compile bdRestPat c =
        [⟨0, "bd", none, 1 / 4⟩, ⟨3 / 4, "bd", none, 1 / 4⟩] ∧
      (compile bdRestPat c).length = 2 ∧
      (compile bdRestPat c).map CompiledEvent.startOffsetWithinCycle = [0, 3 / 4] := by
  refine ⟨rfl, fun c => ?_⟩
  have h : compile bdRestPat c =
      [⟨0, "bd", none, 1 / 4⟩, ⟨3 / 4, "bd", none, 1 / 4⟩] := by
    simp [compile, compileSlot, stepEvents, bdRestPat,
      show List.range 4 = [0, 1, 2, 3] from rfl]
  exact ⟨h, by rw [h]; rfl, by rw [h]; rfl⟩

/-- C3: repeat expansion — the parse of "hh*4" compiles at any cycle to
exactly 4 events of duration 1/4 filling its single top-level slot, and
in general `name*k` compiles to k events each of duration `1/(n*k)` of
the cycle within its slot. -/
theorem repeat_expansion_c3 :
    parse "hh*4" = .ok hh4Pat ∧
    (∀ c : ℕ,
      compile hh4Pat c =
        [⟨0, "hh", none, 1 / 4⟩, ⟨1 / 4, "hh", none, 1 / 4⟩,
         ⟨1 / 2, "hh", none, 1 / 4⟩, ⟨3 / 4, "hh", none, 1 / 4⟩]) ∧
    (∀ (n i c k : ℕ) (sid : String) (v : Option String),
      (compileSlot n i c (Slot.reps sid v k)).length = k ∧
      (compileSlot n i c (Slot.reps sid v k)).map CompiledEvent.durationFraction =
        List.replicate k (1 / ((n : ℚ) * k))) := by
  refine ⟨rfl, fun c => ?_, fun n i c k sid v => ⟨?_, ?_⟩⟩
  · simp [compile, compileSlot, hh4Pat, show List.range 4 = [0, 1, 2, 3] from rfl,
      show List.range 1 = [0] from rfl]
    norm_num
  · simp [compileSlot]
  · simp only [compileSlot, List.map_map]
    rw [show (CompiledEvent.durationFraction ∘ fun (j : ℕ) =>
        (⟨(i : ℚ) / n + (j : ℚ) / ((n : ℚ) * k), sid, v,
          1 / ((n : ℚ) * k)⟩ : CompiledEvent)) =
        fun (_ : ℕ) => 1 / ((n : ℚ) * k) from rfl]
    rw [List.map_const']
    rw [List.length_range]

/-- C4: per-cycle alternation — the parse of "<a b>" compiles to the
a-event at cycle 0, the b-event at cycle 1 and the a-event again at
cycle 2; adding the group length to the cycle index never changes the
compiled output, because the selected child is `cycleIndex mod
groupLength`. -/
theorem alternation_periodicity_c4 :
    parse "<a b>" = .ok abGroupPat ∧
    compile abGroupPat 0 = [⟨0, "a", none, 1⟩] ∧
    compile abGroupPat 1 = [⟨0, "b", none, 1⟩] ∧
    compile abGroupPat 2 = [⟨0, "a", none, 1⟩] ∧
    (∀ c : ℕ, compile abGroupPat (c + 2) = compile abGroupPat c) ∧
    (∀ (n i c : ℕ) (ch : List Step),
      compileSlot n i (c + ch.length) (Slot.group ch) = compileSlot n i c (Slot.group ch)) := by
  have hgen : ∀ (n i c : ℕ) (ch : List Step),
      compileSlot n i (c + ch.length) (Slot.group ch) =
        compileSlot n i c (Slot.group ch) := by
    intro n i c ch
    simp only [compileSlot, Nat.add_mod_right]
  refine ⟨rfl, ?_, ?_, ?_, fun c => ?_, hgen⟩
  · simp [compile, compileSlot, stepEvents, abGroupPat, show List.range 1 = [0] from rfl]
  · simp [compile, compileSlot, stepEvents, abGroupPat, show List.range 1 = [0] from rfl]
  · simp [compile, compileSlot, stepEvents, abGroupPat, show List.range 1 = [0] from rfl]
  · show compile abGroupPat (c + 2) = compile abGroupPat c
    unfold compile
    simp only [show abGroupPat.length = 1 from rfl, show List.range 1 = [0] from rfl,
      List.map_cons, List.map_nil]
    rw [show abGroupPat.getD 0 (Slot.plain Step.rest) =
      Slot.group [Step.hit "a" none, Step.hit "b" none] from rfl]
    rw [show (2 : ℕ) = [Step.hit "a" none, Step.hit "b" none].length from rfl]
    rw [hgen]

/-- C8: every Pattern produced by parse is nonempty, and parsing the
empty string succeeds with a single Rest token. -/
theorem nonempty_pattern_c8 :
    parse "" = .ok [Slot.plain Step.rest] ∧
    ∀ (s : String) (p : Pattern), parse s = .ok p → p ≠ [] := by
  refine ⟨rfl, fun s p h => ?_⟩
  unfold parse at h
  split at h
  · split at h
    · exact absurd h (by simp)
    · rename_i slots _
      rw [Except.ok.injEq] at h
      subst h
      rcases hs : slots.isEmpty with _ | _
      · simp only [hs, Bool.false_eq_true, if_false]
        exact List.isEmpty_eq_false.mp hs
      · simp only [hs, if_true]
        simp
  · exact absurd h (by simp)

/-- C8 witness: the theorem applied to the concrete string "bd". -/
theorem nonempty_pattern_c8_witness :
    ([Slot.plain (Step.hit "bd" none)] : Pattern) ≠ [] :=
  nonempty_pattern_c8.2 "bd" [Slot.plain (Step.hit "bd" none)] rfl

/-- C9: the two tempo formulations of the scripts agree — `setcps(0.5)`
and `setcps(120/60/4)` denote the same cycles-per-second value, namely
one half, the cycles-per-second of 120 BPM with 4 beats per cycle. -/
theorem tempo_equivalence_c9 :
    latinSimpleWorkingCps = testLatinSimpleCps ∧
    testLatinSimpleCps = fixedVersionCps ∧
    latinSimpleWorkingCps = 1 / 2 ∧
    testLatinSimpleCps = cpsOfBpm 120 4 := by
  refine ⟨?_, rfl, ?_, rfl⟩ <;>
    norm_num [latinSimpleWorkingCps, testLatinSimpleCps]

/-- C10: every pattern string appearing in the repository's scripts is
well-formed under the mini-language grammar, so `parse` succeeds on each
of them. -/
theorem scripts_wellformed_c10 :
    (repoPatternStrings.all fun t => (parse t).isOk) = true := rfl

/-- C5: for every composition and rendering window, a successfully
built Timeline is non-decreasing in absolute time across all tracks,
ties are resolved in favour of the earlier-registered Track, and every
entry's absolute time is `(cycleIndex + startOffsetWithinCycle) *
secondsPerCycle`. -/
theorem timeline_sorted_c5 :
    ∀ (comp : Composition) (numCycles : ℕ) (tl : List TimelineEntry),
      buildTimeline comp numCycles = .ok tl →
      (tl.Pairwise fun a b =>
        a.absoluteTimeSeconds ≤ b.absoluteTimeSeconds ∧
        (a.absoluteTimeSeconds = b.absoluteTimeSeconds → a.trackIndex ≤ b.trackIndex)) ∧
      ∀ entry ∈ tl, ∃ c, c < numCycles ∧
        entry.absoluteTimeSeconds =
          ((c : ℚ) + entry.event.startOffsetWithinCycle) * secondsPerCycle comp := by
  intro comp n tl h
  unfold buildTimeline at h
  split at h
  · exact absurd h (by simp)
  · split at h
    · exact absurd h (by simp)
    · rw [Except.ok.injEq] at h
      subst h
      constructor
      · have hs := List.sorted_insertionSort entryLE (rawEntries comp n)
        refine List.Pairwise.imp ?_ hs
        intro a b hab
        rcases hab with hlt | ⟨heq, hle⟩
        · exact ⟨le_of_lt hlt, fun heq2 => absurd heq2 (ne_of_lt hlt)⟩
        · exact ⟨le_of_eq heq, fun _ => hle⟩
      · intro entry hmem
        have hmem2 : entry ∈ rawEntries comp n :=
          (List.perm_insertionSort entryLE (rawEntries comp n)).mem_iff.mp hmem
        unfold rawEntries at hmem2
        rw [List.mem_flatten] at hmem2
        obtain ⟨l, hl, hentry⟩ := hmem2
        rw [List.mem_map] at hl
        obtain ⟨c, hc, rfl⟩ := hl
        rw [List.mem_range] at hc
        unfold cycleEntries at hentry
        rw [List.mem_flatten] at hentry
        obtain ⟨l2, hl2, hentry2⟩ := hentry
        rw [List.mem_map] at hl2
        obtain ⟨pr, hpr, rfl⟩ := hl2
        unfold trackEntries at hentry2
        rw [List.mem_map] at hentry2
        obtain ⟨pe, hpe, rfl⟩ := hentry2
        exact ⟨c, hc, rfl⟩

/-- C5 witness: the theorem applied to a concrete one-track composition
over one cycle; the hypothesis is discharged by rfl. -/
theorem timeline_sorted_c5_witness :
    ((List.insertionSort entryLE (rawEntries sampleComposition 1)).Pairwise fun a b =>
      a.absoluteTimeSeconds ≤ b.absoluteTimeSeconds ∧
      (a.absoluteTimeSeconds = b.absoluteTimeSeconds → a.trackIndex ≤ b.trackIndex)) ∧
    ∀ entry ∈ List.insertionSort entryLE (rawEntries sampleComposition 1),
      ∃ c : ℕ, c < 1 ∧ entry.absoluteTimeSeconds =
        ((c : ℚ) + entry.event.startOffsetWithinCycle) * secondsPerCycle sampleComposition :=
  timeline_sorted_c5 sampleComposition 1 _ rfl

/-- C6 counterexample: on a composition that both has `tempoBPM = 0`
and no registered tracks, `buildTimeline` raises `InvalidTempoError`,
not `EmptyCompositionError` — so the claim's second half ("raises
EmptyCompositionError whenever no Track was registered") is false as
stated. -/
theorem mixer_error_precedence_cex_c6 :
    badTempoComposition.tempoBPM ≤ 0 ∧
    badTempoComposition.tracks = [] ∧
    buildTimeline badTempoComposition 1 = .error .invalidTempo ∧
    buildTimeline badTempoComposition 1 ≠ .error .emptyComposition := by
  refine ⟨le_refl _, rfl, rfl, fun h => ?_⟩
  rw [show buildTimeline badTempoComposition 1 =
    Except.error MixerError.invalidTempo from rfl] at h
  injection h with h2
  exact MixerError.noConfusion h2

/-- C6 (amended): `buildTimeline` raises `InvalidTempoError` whenever
`tempoBPM ≤ 0`, and raises `EmptyCompositionError` whenever no Track
was registered and the tempo is valid (tempo validation takes
precedence); both are raised synchronously and no Timeline is returned
in either case. -/
theorem mixer_errors_c6 :
    ∀ (comp : Composition) (n : ℕ),
      (comp.tempoBPM ≤ 0 → buildTimeline comp n = .error .invalidTempo) ∧
      (0 < comp.tempoBPM → comp.tracks = [] →
        buildTimeline comp n = .error .emptyComposition) := by
  intro comp n
  constructor
  · intro h
    unfold buildTimeline
    rw [if_pos h]
  · intro h1 h2
    unfold buildTimeline
    rw [if_neg (not_le.mpr h1)]
    rw [if_pos (by rw [h2]; rfl)]

/-- C6 witness: the amended theorem applied to a zero-tempo composition
and to a trackless composition with a valid tempo. -/
theorem mixer_errors_c6_witness :
    buildTimeline badTempoComposition 1 = .error .invalidTempo ∧
    buildTimeline noTracksComposition 1 = .error .emptyComposition :=
  ⟨(mixer_errors_c6 badTempoComposition 1).1 (le_refl _),
   (mixer_errors_c6 noTracksComposition 1).2 (by norm_num [noTracksComposition]) rfl⟩

/-- C7 counterexample: the hi-hat pattern "hh*8" of
`latin_simple_working.js` has a single top-level slot yet compiles to 8
CompiledEvents, refuting "compile(p, c) yields at most N CompiledEvents
for a pattern with N top-level slots". -/
theorem repeat_exceeds_slots_cex_c7 :
    parse "hh*8" = .ok hh8Pat ∧
    hh8Pat.length = 1 ∧
    (compile hh8Pat 0).length = 8 ∧
    ¬((compile hh8Pat 0).length ≤ hh8Pat.length) := by
  refine ⟨rfl, rfl, rfl, ?_⟩
  rw [show (compile hh8Pat 0).length = 8 from rfl,
    show hh8Pat.length = 1 from rfl]
  decide

/-- C7 (amended): for a pattern with N top-level slots, each slot's
events have durationFractions summing to at most `1/N`, the
durationFractions of the whole cycle sum to at most 1, and when the
pattern contains no repeat token the event count is at most N (a
`name*k` token contributes up to k events within its single slot). -/
theorem slot_duration_bound_c7 :
    ∀ (p : Pattern) (c : ℕ), p ≠ [] →
      (∀ i, i < p.length →
        durSum (compileSlot p.length i c (p.getD i (Slot.plain Step.rest))) ≤
          1 / (p.length : ℚ)) ∧
      durSum (compile p c) ≤ 1 ∧
      (hasReps p = false → (compile p c).length ≤ p.length) := by
  intro p c hp
  have hn : 0 < p.length := List.length_pos.mpr hp
  have hq : (0 : ℚ) < p.length := by exact_mod_cast hn
  refine ⟨fun i _ => compileSlot_durSum p.length i c _ hn, ?_, ?_⟩
  · have h1 : durSum (compile p c) =
        ((List.range p.length).map fun i =>
          durSum (compileSlot p.length i c (p.getD i (Slot.plain Step.rest)))).sum := by
      unfold compile durSum
      rw [List.map_flatten, List.sum_flatten, List.map_map, List.map_map]
      rfl
    rw [h1]
    have h2 : ∀ x ∈ (List.range p.length).map fun i =>
        durSum (compileSlot p.length i c (p.getD i (Slot.plain Step.rest))),
        x ≤ 1 / (p.length : ℚ) := by
      intro x hx
      rw [List.mem_map] at hx
      obtain ⟨i, _, rfl⟩ := hx
      exact compileSlot_durSum p.length i c _ hn
    have h3 := List.sum_le_card_nsmul _ _ h2
    rw [List.length_map, List.length_range] at h3
    calc ((List.range p.length).map fun i =>
          durSum (compileSlot p.length i c (p.getD i (Slot.plain Step.rest)))).sum
        ≤ p.length • (1 / (p.length : ℚ)) := h3
      _ = (p.length : ℚ) * (1 / (p.length : ℚ)) := by rw [nsmul_eq_mul]
      _ = 1 := by rw [mul_one_div, div_self (ne_of_gt hq)]
  · intro hnr
    have hlen : (compile p c).length =
        ((List.range p.length).map fun i =>
          (compileSlot p.length i c (p.getD i (Slot.plain Step.rest))).length).sum := by
      unfold compile
      rw [List.length_flatten, List.map_map]
      rfl
    rw [hlen]
    have hcount : ∀ x ∈ (List.range p.length).map fun i =>
        (compileSlot p.length i c (p.getD i (Slot.plain Step.rest))).length,
        x ≤ 1 := by
      intro x hx
      rw [List.mem_map] at hx
      obtain ⟨i, hi, rfl⟩ := hx
      rw [List.mem_range] at hi
      apply compileSlot_length_le
      intro sid v k hk
      have hmem : p.getD i (Slot.plain Step.rest) ∈ p := by
        rw [List.getD_eq_getElem?_getD, List.getElem?_eq_getElem hi]
        exact List.getElem_mem hi
      unfold hasReps at hnr
      have hfalse := (List.any_eq_false.mp hnr) _ hmem
      rw [hk] at hfalse
      simp at hfalse
    have h4 := List.sum_le_card_nsmul _ 1 hcount
    rw [List.length_map, List.length_range, smul_eq_mul, mul_one] at h4
    exact h4

/-- C7 witness: the amended theorem applied to the pattern of
"bd ~ ~ bd" at cycle 0. -/
theorem slot_duration_bound_c7_witness :
    (∀ i, i < bdRestPat.length →
      durSum (compileSlot bdRestPat.length i 0 (bdRestPat.getD i (Slot.plain Step.rest))) ≤
        1 / (bdRestPat.length : ℚ)) ∧
    durSum (compile bdRestPat 0) ≤ 1 ∧
    (hasReps bdRestPat = false → (compile bdRestPat 0).length ≤ bdRestPat.length) :=
  slot_duration_bound_c7 bdRestPat 0 (by decide)

end Strudel
